import Mathlib

/-!
Verification development for the ron-parser repository.

Shallow embedding of the value model (src/value.rs), lexer (src/lexer.rs),
parser (src/parser.rs) and loader (src/lib.rs), with theorems settling the
spec claims.

Modelling conventions:
* `f64` is modelled by the inductive `F64`: a NaN (with payload, so that two
  distinct NaN bit patterns are distinct values), the two infinities, and
  finite values as exact rationals.  The IEEE primitives used by the source
  (`is_nan`, `==`, `partial_cmp`, `as u64`) are defined on it.
* `i64` is modelled as `Int`; the only operations used are comparison and
  range-checked parsing.
* machine hashing is modelled by the exact `u64` the source feeds to the
  hasher (`state.write_u64(self.0 as u64)`).
* diagnostics (`ariadne` report builders) are modelled as a message plus a
  byte position; labels and notes are rendering detail and are omitted.
-/

/-- Model of an `f64` bit pattern as used by the source: NaN (with payload
distinguishing different NaN bit patterns), infinities, finite values. -/
inductive F64 where
  | nan (payload : Nat)
  | negInf
  | posInf
  | finite (q : ℚ)
deriving DecidableEq

/-- Rust `f64::is_nan`. -/
def f64IsNan : F64 → Bool
  | .nan _ => true
  | _ => false

/-- IEEE `==` on `f64` (Rust `self.0 == other.0`): NaN is equal to nothing. -/
def f64Eq : F64 → F64 → Bool
  | .nan _, _ => false
  | _, .nan _ => false
  | .negInf, .negInf => true
  | .posInf, .posInf => true
  | .finite q, .finite r => q == r
  | _, _ => false

/-- Comparison on rationals. -/
def ratCmp (q r : ℚ) : Ordering :=
  if q < r then .lt else if q = r then .eq else .gt

/-- IEEE `partial_cmp` on `f64` (Rust `self.0.partial_cmp(&other.0)`):
`none` whenever a NaN is involved. -/
def f64PartialCmpRaw : F64 → F64 → Option Ordering
  | .nan _, _ => none
  | _, .nan _ => none
  | .negInf, .negInf => some .eq
  | .negInf, _ => some .lt
  | _, .negInf => some .gt
  | .posInf, .posInf => some .eq
  | _, .posInf => some .lt
  | .posInf, _ => some .gt
  | .finite q, .finite r => some (ratCmp q r)

/-- Rust saturating cast `f64 as u64`: NaN goes to 0, negatives to 0, values
beyond `u64::MAX` to `u64::MAX`, finite values truncate toward zero. -/
def f64ToU64 : F64 → Nat
  | .nan _ => 0
  | .negInf => 0
  | .posInf => 2 ^ 64 - 1
  | .finite q =>
    if q ≤ 0 then 0
    else min q.floor.toNat (2 ^ 64 - 1)

/-- Rust `impl PartialEq for Float` (value.rs:381-385):
`self.0.is_nan() && other.0.is_nan() || self.0 == other.0`. -/
def floatEq (a b : F64) : Bool :=
  (f64IsNan a && f64IsNan b) || f64Eq a b

/-- Rust `impl Hash for Float` (value.rs:393-397): the `u64` written to the hasher
is `self.0 as u64`. -/
def floatHash (a : F64) : Nat :=
  f64ToU64 a

/-- Rust `impl PartialOrd for Float` (value.rs:408-417). -/
def floatPartialCmp (a b : F64) : Option Ordering :=
  match f64IsNan a, f64IsNan b with
  | true, true => some .eq
  | true, false => some .lt
  | false, true => some .gt
  | _, _ => f64PartialCmpRaw a b

/-- Rust `impl Ord for Float` (value.rs:424-428): the source unwraps
`partial_cmp` (which it proves total by the NaN handling). -/
def floatCmp (a b : F64) : Ordering :=
  (floatPartialCmp a b).getD .eq

/-- Rust `enum Number` (value.rs:121-125). -/
inductive Number where
  | integer (i : Int)
  | float (f : F64)
deriving DecidableEq

/-- Derived `PartialEq` on `Number`: variant-wise, `i64` equality on
integers, `floatEq` on floats. -/
def numberEq : Number → Number → Bool
  | .integer i, .integer j => i == j
  | .float f, .float g => floatEq f g
  | _, _ => false

/-- Derived `PartialOrd` on `Number`: the `Integer` variant precedes the
`Float` variant; payloads use their own `partial_cmp`. -/
def numberPartialCmp : Number → Number → Option Ordering
  | .integer i, .integer j => some (compare i j)
  | .integer _, .float _ => some .lt
  | .float _, .integer _ => some .gt
  | .float f, .float g => floatPartialCmp f g

/-- Derived `Ord` on `Number`. -/
def numberCmp : Number → Number → Ordering
  | .integer i, .integer j => compare i j
  | .integer _, .float _ => .lt
  | .float _, .integer _ => .gt
  | .float f, .float g => floatCmp f g

/-- Rust `enum Value` (value.rs:430-443).  `Map` is its ordered pair list,
`Struct` is inlined as (name, prototype, ordered field list). -/
inductive Value where
  | bool (b : Bool)
  | char (c : Char)
  | map (pairs : List (Value × Value))
  | struct (name : Option String) (prototype : Option String)
      (fields : List (String × Value))
  | number (n : Number)
  | option (o : Option Value)
  | string (s : String)
  | seq (vs : List Value)
  | tuple (name : Option String) (vs : List Value)
  | incl (path : String)
  | unit

/-- Rust `struct Struct` (value.rs:129-133) as a record, for stating the claims
about `Struct`'s comparison impls. -/
structure StructV where
  name : Option String
  prototype : Option String
  fields : List (String × Value)

/-- Rust `String` ordering, rendered through decidable comparison. -/
def strCmp (a b : String) : Ordering :=
  if a = b then .eq else if a < b then .lt else .gt

/-- Derived `Ord` on `Option`: `None` precedes `Some`. -/
def optCmp (c : α → α → Ordering) : Option α → Option α → Ordering
  | none, none => .eq
  | none, some _ => .lt
  | some _, none => .gt
  | some a, some b => c a b

/-- Derived `PartialOrd` on `Option`. -/
def optPartialCmp (c : α → α → Option Ordering) :
    Option α → Option α → Option Ordering
  | none, none => some .eq
  | none, some _ => some .lt
  | some _, none => some .gt
  | some a, some b => c a b

/-- Rust `false < true`, the derived `Ord` on `bool`. -/
def boolCmp : Bool → Bool → Ordering
  | false, true => .lt
  | true, false => .gt
  | _, _ => .eq

/-- Rust `char` ordering by code point. -/
def charCmp (a b : Char) : Ordering :=
  compare a.toNat b.toNat

/-- Discriminant index of a `Value` variant, in declaration order, used by
the derived `PartialEq`/`Ord`/`PartialOrd` on the enum. -/
def valueTag : Value → Nat
  | .bool _ => 0
  | .char _ => 1
  | .map _ => 2
  | .struct _ _ _ => 3
  | .number _ => 4
  | .option _ => 5
  | .string _ => 6
  | .seq _ => 7
  | .tuple _ _ => 8
  | .incl _ => 9
  | .unit => 10

mutual

/-- Rust `==` on `Value`: the derived `PartialEq` on the enum, with the
custom impls for `Map` (value.rs:106-110: zip-based, no length check),
`Struct` (value.rs:234-241) and `Float` at the leaves. -/
def valueEq : Value → Value → Bool
  | .bool a, .bool b => a == b
  | .char a, .char b => a == b
  | .map a, .map b => pairsZipAllEq a b
  | .struct n1 p1 f1, .struct n2 p2 f2 =>
    (f1.length == f2.length) && fieldsZipAllEq f1 f2
      && (n1 == n2) && (p1 == p2)
  | .number a, .number b => numberEq a b
  | .option a, .option b => optValueEq a b
  | .string a, .string b => a == b
  | .seq a, .seq b => listValueEq a b
  | .tuple n1 a, .tuple n2 b => (n1 == n2) && listValueEq a b
  | .incl a, .incl b => a == b
  | .unit, .unit => true
  | _, _ => false
termination_by a _ => sizeOf a
decreasing_by all_goals (simp_wf <;> omega)

/-- Rust `Vec<Value>` equality: lengths equal and elementwise equal. -/
def listValueEq : List Value → List Value → Bool
  | [], [] => true
  | a :: as_, b :: bs => valueEq a b && listValueEq as_ bs
  | _, _ => false
termination_by a _ => sizeOf a
decreasing_by all_goals (simp_wf <;> omega)

/-- Rust `Option<Box<Value>>` equality. -/
def optValueEq : Option Value → Option Value → Bool
  | none, none => true
  | some a, some b => valueEq a b
  | _, _ => false
termination_by a _ => sizeOf a
decreasing_by all_goals (simp_wf <;> omega)

/-- Rust `self.iter().zip(other.iter()).all(|(a, b)| a == b)` on map pair lists:
the zip truncates to the shorter list (the heart of `Map`'s `PartialEq`). -/
def pairsZipAllEq : List (Value × Value) → List (Value × Value) → Bool
  | [], _ => true
  | _, [] => true
  | (k1, v1) :: r1, (k2, v2) :: r2 =>
    valueEq k1 k2 && valueEq v1 v2 && pairsZipAllEq r1 r2
termination_by a _ => sizeOf a
decreasing_by all_goals (simp_wf <;> omega)

/-- The zip-all part of `Struct`'s `PartialEq` over field lists. -/
def fieldsZipAllEq : List (String × Value) → List (String × Value) → Bool
  | [], _ => true
  | _, [] => true
  | (k1, v1) :: r1, (k2, v2) :: r2 =>
    (k1 == k2) && valueEq v1 v2 && fieldsZipAllEq r1 r2
termination_by a _ => sizeOf a
decreasing_by all_goals (simp_wf <;> omega)

end

/-- Rust `impl PartialEq for Map` (value.rs:106-110). -/
def mapEqB (a b : List (Value × Value)) : Bool :=
  pairsZipAllEq a b

/-- Rust `impl PartialEq for Struct` (value.rs:234-241). -/
def structEqB (a b : StructV) : Bool :=
  (a.fields.length == b.fields.length) && fieldsZipAllEq a.fields b.fields
    && (a.name == b.name) && (a.prototype == b.prototype)

mutual

/-- Rust `Ord::cmp` on `Value`: the derived `Ord` on the enum (variant
declaration order first), with the custom impls for `Map`
(value.rs:99-103: `self.iter().cmp(other.iter())`), `Struct`
(value.rs:227-231: `self.iter().cmp(other.iter())`, name and prototype
ignored) and `Float` at the leaves. -/
def valueCmp : Value → Value → Ordering
  | .bool a, .bool b => boolCmp a b
  | .char a, .char b => charCmp a b
  | .map a, .map b => pairsCmpLex a b
  | .struct _ _ f1, .struct _ _ f2 => fieldsCmpLex f1 f2
  | .number a, .number b => numberCmp a b
  | .option a, .option b => optValueCmp a b
  | .string a, .string b => strCmp a b
  | .seq a, .seq b => listValueCmpLex a b
  | .tuple n1 a, .tuple n2 b =>
    match optCmp strCmp n1 n2 with
    | .eq => listValueCmpLex a b
    | o => o
  | .incl a, .incl b => strCmp a b
  | .unit, .unit => .eq
  | a, b => compare (valueTag a) (valueTag b)
termination_by a _ => sizeOf a
decreasing_by all_goals (simp_wf <;> omega)

/-- Rust `Iterator::cmp` over `Vec<Value>`: lexicographic, a proper prefix is
less. -/
def listValueCmpLex : List Value → List Value → Ordering
  | [], [] => .eq
  | [], _ :: _ => .lt
  | _ :: _, [] => .gt
  | a :: as_, b :: bs =>
    match valueCmp a b with
    | .eq => listValueCmpLex as_ bs
    | o => o
termination_by a _ => sizeOf a
decreasing_by all_goals (simp_wf <;> omega)

/-- Derived `Ord` on `Option<Box<Value>>`. -/
def optValueCmp : Option Value → Option Value → Ordering
  | none, none => .eq
  | none, some _ => .lt
  | some _, none => .gt
  | some a, some b => valueCmp a b
termination_by a _ => sizeOf a
decreasing_by all_goals (simp_wf <;> omega)

/-- Rust `Iterator::cmp` over map entries, each entry compared by the derived
`Ord` on the pair (key first, then value). -/
def pairsCmpLex : List (Value × Value) → List (Value × Value) → Ordering
  | [], [] => .eq
  | [], _ :: _ => .lt
  | _ :: _, [] => .gt
  | (k1, v1) :: r1, (k2, v2) :: r2 =>
    match valueCmp k1 k2 with
    | .eq =>
      match valueCmp v1 v2 with
      | .eq => pairsCmpLex r1 r2
      | o => o
    | o => o
termination_by a _ => sizeOf a
decreasing_by all_goals (simp_wf <;> omega)

/-- Rust `Iterator::cmp` over struct fields, each compared by the derived `Ord`
on `(String, Value)` (name first, then value). -/
def fieldsCmpLex : List (String × Value) → List (String × Value) → Ordering
  | [], [] => .eq
  | [], _ :: _ => .lt
  | _ :: _, [] => .gt
  | (k1, v1) :: r1, (k2, v2) :: r2 =>
    match strCmp k1 k2 with
    | .eq =>
      match valueCmp v1 v2 with
      | .eq => fieldsCmpLex r1 r2
      | o => o
    | o => o
termination_by a _ => sizeOf a
decreasing_by all_goals (simp_wf <;> omega)

end

/-- Rust `impl Ord for Map` (value.rs:99-103). -/
def mapCmpB (a b : List (Value × Value)) : Ordering :=
  pairsCmpLex a b

/-- Rust `impl Ord for Struct` (value.rs:227-231): compares only the ordered
field sequences; `name` and `prototype` do not participate. -/
def structCmpB (a b : StructV) : Ordering :=
  fieldsCmpLex a.fields b.fields

mutual

/-- Rust `PartialOrd::partial_cmp` on `Value`: the derived `PartialOrd` on
the enum, with the custom impls for `Map` (value.rs:112-116), `Struct`
(value.rs:243-250: name first, then fields, prototype ignored) and `Float`
at the leaves. -/
def valuePartialCmp : Value → Value → Option Ordering
  | .bool a, .bool b => some (boolCmp a b)
  | .char a, .char b => some (charCmp a b)
  | .map a, .map b => pairsPartialCmpLex a b
  | .struct n1 _ f1, .struct n2 _ f2 =>
    match optCmp strCmp n1 n2 with
    | .eq => fieldsPartialCmpLex f1 f2
    | o => some o
  | .number a, .number b => numberPartialCmp a b
  | .option a, .option b => optValuePartialCmp a b
  | .string a, .string b => some (strCmp a b)
  | .seq a, .seq b => listValuePartialCmpLex a b
  | .tuple n1 a, .tuple n2 b =>
    match optCmp strCmp n1 n2 with
    | .eq => listValuePartialCmpLex a b
    | o => some o
  | .incl a, .incl b => some (strCmp a b)
  | .unit, .unit => some .eq
  | a, b => some (compare (valueTag a) (valueTag b))
termination_by a _ => sizeOf a
decreasing_by all_goals (simp_wf <;> omega)

/-- Rust `Iterator::partial_cmp` over `Vec<Value>`. -/
def listValuePartialCmpLex : List Value → List Value → Option Ordering
  | [], [] => some .eq
  | [], _ :: _ => some .lt
  | _ :: _, [] => some .gt
  | a :: as_, b :: bs =>
    match valuePartialCmp a b with
    | some .eq => listValuePartialCmpLex as_ bs
    | o => o
termination_by a _ => sizeOf a
decreasing_by all_goals (simp_wf <;> omega)

/-- Derived `PartialOrd` on `Option<Box<Value>>`. -/
def optValuePartialCmp : Option Value → Option Value → Option Ordering
  | none, none => some .eq
  | none, some _ => some .lt
  | some _, none => some .gt
  | some a, some b => valuePartialCmp a b
termination_by a _ => sizeOf a
decreasing_by all_goals (simp_wf <;> omega)

/-- Rust `Iterator::partial_cmp` over map entries. -/
def pairsPartialCmpLex :
    List (Value × Value) → List (Value × Value) → Option Ordering
  | [], [] => some .eq
  | [], _ :: _ => some .lt
  | _ :: _, [] => some .gt
  | (k1, v1) :: r1, (k2, v2) :: r2 =>
    match valuePartialCmp k1 k2 with
    | some .eq =>
      match valuePartialCmp v1 v2 with
      | some .eq => pairsPartialCmpLex r1 r2
      | o => o
    | o => o
termination_by a _ => sizeOf a
decreasing_by all_goals (simp_wf <;> omega)

/-- Rust `Iterator::partial_cmp` over struct fields. -/
def fieldsPartialCmpLex :
    List (String × Value) → List (String × Value) → Option Ordering
  | [], [] => some .eq
  | [], _ :: _ => some .lt
  | _ :: _, [] => some .gt
  | (k1, v1) :: r1, (k2, v2) :: r2 =>
    match strCmp k1 k2 with
    | .eq =>
      match valuePartialCmp v1 v2 with
      | some .eq => fieldsPartialCmpLex r1 r2
      | o => o
    | o => o
termination_by a _ => sizeOf a
decreasing_by all_goals (simp_wf <;> omega)

end

/-- Rust `impl PartialOrd for Struct` (value.rs:243-250): name first, then the
ordered field sequences; `prototype` does not participate. -/
def structPartialCmpB (a b : StructV) : Option Ordering :=
  match optCmp strCmp a.name b.name with
  | .eq => fieldsPartialCmpLex a.fields b.fields
  | o => some o

/-- A diagnostic: the report message plus the byte position it was built at
(`Report::build(kind, _, pos)`).  Labels and notes are rendering detail. -/
structure Diag where
  msg : String
  pos : Nat
deriving DecidableEq

/-- Rust `enum TokenKind` (token.rs:16-41). -/
inductive TokenKind where
  | LeftParen
  | RightParen
  | LeftBrace
  | RightBrace
  | LeftBracket
  | RightBracket
  | Comma
  | Colon
  | Hash
  | Comment
  | Whitespace
  | Newline
  | False
  | True
  | Ident
  | Number
  | String
  | None
  | Eof
deriving DecidableEq

/-- The two brace characters, written via code points. -/
def lbraceChar : Char := Char.ofNat 123

def rbraceChar : Char := Char.ofNat 125

/-- Rust `TokenKind::str` (token.rs:44-66). -/
def tokenKindStr : TokenKind → String
  | .LeftParen => "("
  | .RightParen => ")"
  | .LeftBrace => "\x7b"
  | .RightBrace => "\x7d"
  | .LeftBracket => "["
  | .RightBracket => "]"
  | .Comma => ","
  | .Colon => ":"
  | .Hash => "#"
  | .Comment => "<COMMENT>"
  | .Whitespace => "\\s"
  | .Newline => "\\n"
  | .False => "false"
  | .True => "true"
  | .None => "None"
  | .Number => "<NUMBER>"
  | .Eof => "<EOF>"
  | .Ident => "<IDENT>"
  | .String => "<STRING>"

/-- Rust `struct Token` (token.rs:3-8); the span is `startPos..stopPos`. -/
structure Token where
  kind : TokenKind
  startPos : Nat
  stopPos : Nat
  text : String
deriving DecidableEq

instance : Inhabited Token := ⟨⟨.Eof, 0, 0, ""⟩⟩

/-- Rust `struct Lexer` state (lexer.rs:10-18): remaining source characters,
accumulated tokens and errors, the character buffer of the current token,
and the start/current positions. -/
structure LexSt where
  source : List Char
  tokens : List Token
  errors : List Diag
  chars : List Char
  start : Nat
  current : Nat

/-- Rust `Lexer::advance` (lexer.rs:126-133): `current` is incremented even when
the source is exhausted. -/
def lexAdvance (st : LexSt) : Option Char × LexSt :=
  match st.source with
  | [] => (none, { st with current := st.current + 1 })
  | c :: rest =>
    (some c, { st with source := rest, current := st.current + 1,
                       chars := st.chars ++ [c] })

/-- Rust `Lexer::consume` (lexer.rs:162-170). -/
def lexConsume (expected : Char) (st : LexSt) : Bool × LexSt :=
  match st.source with
  | c :: _ => if c = expected then (true, (lexAdvance st).2) else (false, st)
  | [] => (false, st)

/-- A `while peek matches p { advance }` loop, as used by `Lexer::number`,
`Lexer::ident` and the comment scanners.  `src` is the state's remaining
source, passed separately so the recursion is structural. -/
def munchWhile (p : Char → Bool) : List Char → LexSt → LexSt
  | [], st => st
  | c :: rest, st =>
    if p c then
      munchWhile p rest
        { st with source := rest, current := st.current + 1,
                  chars := st.chars ++ [c] }
    else st

/-- Rust `Lexer::string` (lexer.rs:141-149): consume until an unescaped quote;
the escape state is re-derived from each consumed character.  `src` is the
state's remaining source, passed separately so the recursion is
structural. -/
def lexString (escaped : Bool) : List Char → LexSt → LexSt
  | [], st => { st with current := st.current + 1 }
  | c :: rest, st =>
    let st' : LexSt :=
      { st with source := rest, current := st.current + 1,
                chars := st.chars ++ [c] }
    if c = '"' && !escaped then st' else lexString (c == '\\') rest st'

/-- Character class of `Lexer::number` continuation (lexer.rs:135-139). -/
def isNumberChar (c : Char) : Bool :=
  c.isDigit || c = '-' || c = '+' || c = '.' || c = 'e'

/-- Character class of `Lexer::ident` continuation (lexer.rs:151-160). -/
def isIdentChar (c : Char) : Bool :=
  c = '_' || c.isAlpha || c.isDigit

/-- Result of `Lexer::scan_token`: a token kind, a lexical error, or the
`todo!()` panic reached on a `/` that starts no comment. -/
inductive ScanRes where
  | tk (k : TokenKind)
  | lexErr (d : Diag)
  | panicked

/-- Rust `Lexer::scan_token` (lexer.rs:73-124).  Note the source has no arm for
the character `#`: it falls into the catch-all "Unexpected character" error
arm, so `TokenKind::Hash` is never produced.  Note also that in the block
comment loop the source binds `previous` to a space once and never updates
it, so the loop condition `peek != '/' || previous != '*'` is always true
and a block comment consumes every remaining character. -/
def scanToken (st : LexSt) : ScanRes × LexSt :=
  match lexAdvance st with
  | (none, st') => (.tk .Eof, st')
  | (some c, st') =>
    if c = '(' then (.tk .LeftParen, st')
    else if c = ')' then (.tk .RightParen, st')
    else if c = lbraceChar then (.tk .LeftBrace, st')
    else if c = rbraceChar then (.tk .RightBrace, st')
    else if c = '[' then (.tk .LeftBracket, st')
    else if c = ']' then (.tk .RightBracket, st')
    else if c = ':' then (.tk .Colon, st')
    else if c = ',' then (.tk .Comma, st')
    else if c = '/' then
      match lexConsume '/' st' with
      | (true, st1) => (.tk .Comment, munchWhile (fun ch => ch != '\n') st1.source st1)
      | (false, _) =>
        match lexConsume '*' st' with
        | (true, st1) =>
          (.tk .Comment,
            munchWhile (fun ch => (ch != '/') || (' ' != '*')) st1.source st1)
        | (false, _) => (.panicked, st')
    else if c = ' ' || c = '\r' || c = '\t' then (.tk .Whitespace, st')
    else if c = '\n' then (.tk .Newline, st')
    else if c.isDigit || c = '-' then
      (.tk .Number, munchWhile isNumberChar st'.source st')
    else if c = '"' then (.tk .String, lexString false st'.source st')
    else if c = '_' || c.isAlpha then
      (.tk .Ident, munchWhile isIdentChar st'.source st')
    else
      (.lexErr ⟨"Unexpected character `" ++ String.singleton c ++ "`",
        st'.current⟩, st')

/-- The outcome of a whole lexer run. -/
structure LexOut where
  tokens : List Token
  errors : List Diag
  panicked : Bool

/-- The loop of `Lexer::scan` (lexer.rs:34-71), fuelled: each non-`Eof`
iteration consumes at least one character, so `source.length + 2` fuel is
always sufficient. -/
def scanGo : Nat → LexSt → LexOut
  | 0, st => ⟨st.tokens, st.errors, false⟩
  | fuel + 1, st =>
    match scanToken st with
    | (.panicked, st') => ⟨st'.tokens, st'.errors, true⟩
    | (.lexErr d, st') =>
      scanGo fuel { st' with errors := st'.errors ++ [d], chars := [],
                             start := st'.current }
    | (.tk k, st') =>
      match k with
      | .Whitespace | .Comment | .Newline =>
        scanGo fuel { st' with chars := [], start := st'.current }
      | _ =>
        let text := String.mk st'.chars
        let kind :=
          if k = .Ident then
            if text = "true" then TokenKind.True
            else if text = "false" then TokenKind.False
            else if text = "None" then TokenKind.None
            else TokenKind.Ident
          else k
        let tok : Token := ⟨kind, st'.start, st'.current, text⟩
        let st'' : LexSt :=
          { st' with tokens := st'.tokens ++ [tok], chars := [],
                     start := st'.current }
        if k = .Eof then ⟨st''.tokens, st''.errors, false⟩
        else scanGo fuel st''

/-- Rust `Lexer::scan` (lexer.rs:34-71). -/
def scan (source : String) : LexOut :=
  scanGo (source.length + 2) ⟨source.toList, [], [], [], 0, 0⟩

/-- Numeric value of a digit list. -/
def digitsVal (ds : List Char) : Nat :=
  ds.foldl (fun acc c => acc * 10 + (c.toNat - 48)) 0

/-- Rust `str::parse::<i64>`: optional sign, one or more digits, value in
the `i64` range. -/
def parseI64 (s : String) : Option Int :=
  let cs := s.toList
  let (neg, ds) :=
    match cs with
    | '+' :: r => (false, r)
    | '-' :: r => (true, r)
    | r => (false, r)
  if ds.isEmpty || !(ds.all Char.isDigit) then none
  else
    let v : Int := if neg then -(digitsVal ds : Int) else (digitsVal ds : Int)
    if -(2 ^ 63) ≤ v ∧ v ≤ 2 ^ 63 - 1 then some v else none

/-- Rust `str::parse::<f64>`, with the numeric value abstracted to the exact
rational the literal denotes (rounding to the nearest representable `f64` is
not modelled; no claim depends on it).  Grammar as in the standard library:
optional sign, then `inf`/`infinity`/`nan` (case-insensitive) or a decimal
with digits on at least one side of the point and an optional exponent. -/
def parseF64 (s : String) : Option F64 :=
  let cs := (s.toList).map Char.toLower
  let (neg, r1) :=
    match cs with
    | '+' :: r => (false, r)
    | '-' :: r => (true, r)
    | r => (false, r)
  if r1 = ['i', 'n', 'f'] || r1 = ['i', 'n', 'f', 'i', 'n', 'i', 't', 'y'] then
    some (if neg then F64.negInf else F64.posInf)
  else if r1 = ['n', 'a', 'n'] then some (F64.nan 0)
  else
    let intPart := r1.takeWhile Char.isDigit
    let r2 := r1.dropWhile Char.isDigit
    let (fracPart, r3) :=
      match r2 with
      | '.' :: r => (r.takeWhile Char.isDigit, r.dropWhile Char.isDigit)
      | r => ([], r)
    let hasPoint := r2.head? = some '.'
    let expPart : Option (Bool × List Char) :=
      match r3 with
      | 'e' :: '+' :: r => some (false, r)
      | 'e' :: '-' :: r => some (true, r)
      | 'e' :: r => some (false, r)
      | _ => none
    let expOk :=
      match expPart with
      | some (_, ds) => !ds.isEmpty && ds.all Char.isDigit
      | none => r3.isEmpty
    if (intPart.isEmpty && (!hasPoint || fracPart.isEmpty)) || !expOk then
      none
    else
      let mantissa : ℚ :=
        (digitsVal intPart : ℚ) +
          (digitsVal fracPart : ℚ) / ((10 : ℚ) ^ fracPart.length)
      let scaled : ℚ :=
        match expPart with
        | some (eneg, ds) =>
          if eneg then mantissa / ((10 : ℚ) ^ digitsVal ds)
          else mantissa * ((10 : ℚ) ^ digitsVal ds)
        | none => mantissa
      some (F64.finite (if neg then -scaled else scaled))

/-- Rust `struct Parser` state (parser.rs:13-18): the token list, the cursor, and
the accumulated diagnostics (seeded with the lexer's errors). -/
structure PSt where
  tokens : List Token
  current : Nat
  errors : List Diag

/-- Result of a fallible parser production (`Result<T>` in the source),
with the extra outcomes of the embedding: a panic of the source, or fuel
exhaustion of the embedding. -/
inductive PRes (α : Type) where
  | ok (a : α) (st : PSt)
  | thrown (d : Diag) (st : PSt)
  | panicked
  | fuelOut

/-- Rust `Parser::peek` (parser.rs:347-349). -/
def peekT (st : PSt) : Token :=
  st.tokens.getD st.current default

/-- Rust `Parser::previous` (parser.rs:351-353). -/
def previousT (st : PSt) : Token :=
  st.tokens.getD (st.current - 1) default

/-- Rust `Parser::pos` (parser.rs:404-406). -/
def posP (st : PSt) : Nat :=
  (peekT st).startPos

/-- Rust `Parser::is_at_end` (parser.rs:400-402). -/
def isAtEnd (st : PSt) : Bool :=
  (peekT st).kind = .Eof

/-- Rust `Parser::advance` (parser.rs:393-398). -/
def advanceP (st : PSt) : Token × PSt :=
  let st' := if isAtEnd st then st else { st with current := st.current + 1 }
  (previousT st', st')

/-- Rust `Parser::consume` (parser.rs:355-362). -/
def consumeP (k : TokenKind) (st : PSt) : Bool × PSt :=
  if (peekT st).kind = k then
    let (_, st') := advanceP st
    (true, st')
  else (false, st)

/-- Rust `Parser::require` (parser.rs:364-377). -/
def requireT (k : TokenKind) (st : PSt) : PRes Token :=
  if (peekT st).kind = k then
    let (t, st') := advanceP st
    .ok t st'
  else .thrown ⟨"Unexpected token", posP st⟩ st

/-- Rust `Parser::ident` (parser.rs:379-391). -/
def identP (st : PSt) : PRes String :=
  if (peekT st).kind = .Ident then
    let (t, st') := advanceP st
    .ok t.text st'
  else .thrown ⟨"Unexpected token", posP st⟩ st

/-- Rust `Parser::check2` (parser.rs:335-337). -/
def check2 (st : PSt) (k : TokenKind) : Bool :=
  st.current + 1 < st.tokens.length
    && (st.tokens.getD (st.current + 1) default).kind = k

/-- Rust `Parser::check3` (parser.rs:339-341). -/
def check3 (st : PSt) (k : TokenKind) : Bool :=
  st.current + 2 < st.tokens.length
    && (st.tokens.getD (st.current + 2) default).kind = k

/-- Rust `Parser::check_text3` (parser.rs:343-345). -/
def checkText3 (st : PSt) (text : String) : Bool :=
  st.current + 2 < st.tokens.length
    && (st.tokens.getD (st.current + 2) default).text = text

/-- The escape-decoding loop of `Parser::string` (parser.rs:296-331).
`pk` is the start of the token at the cursor, used by the source for the
unknown-escape error position. -/
def decodeEscapes (pk : Nat) :
    List Char → Nat → Bool → String → List Diag → String × List Diag
  | [], _, _, acc, errs => (acc, errs)
  | c :: rest, i, escaped, acc, errs =>
    if escaped then
      match c with
      | 'n' => decodeEscapes pk rest (i + 1) false (acc.push '\n') errs
      | 'r' => decodeEscapes pk rest (i + 1) false (acc.push '\r') errs
      | 't' => decodeEscapes pk rest (i + 1) false (acc.push '\t') errs
      | '\\' => decodeEscapes pk rest (i + 1) false (acc.push '\\') errs
      | '"' => decodeEscapes pk rest (i + 1) false (acc.push '"') errs
      | '0' => decodeEscapes pk rest (i + 1) false (acc.push '\x00') errs
      | _ =>
        decodeEscapes pk rest (i + 1) false acc
          (errs ++ [⟨"unknown character escape: `\\" ++ String.singleton c
            ++ "`", pk + i - 1⟩])
    else if c = '\\' then decodeEscapes pk rest (i + 1) true acc errs
    else decodeEscapes pk rest (i + 1) false (acc.push c) errs

/-- Rust `Parser::string` (parser.rs:290-333).  The source slices
`text[1..text.len()-1]`, which panics when the previous token's text is
shorter than two characters. -/
def pString (st : PSt) : PRes String :=
  let (_, st1) := (consumeP .String st)
  let text := (previousT st1).text
  if text.length < 2 then .panicked
  else
    let inner := (text.toList.drop 1).dropLast
    let (s, errs) := decodeEscapes (peekT st1).startPos inner 0 false "" []
    .ok s { st1 with errors := st1.errors ++ errs }

/-- Rust `IndexMap<String, Value>::insert`: an existing key keeps its position
and gets the new value; a new key is appended. -/
def indexInsert : List (String × Value) → String → Value →
    List (String × Value)
  | [], k, v => [(k, v)]
  | (k', v') :: rest, k, v =>
    if k' = k then (k', v) :: rest else (k', v') :: indexInsert rest k v

/-- Rust `IndexMap<Value, Value>::insert`, key equality being the source's
`Value` equality. -/
def mapIndexInsert : List (Value × Value) → Value → Value →
    List (Value × Value)
  | [], k, v => [(k, v)]
  | (k', v') :: rest, k, v =>
    if valueEq k' k then (k', v) :: rest
    else (k', v') :: mapIndexInsert rest k v

/-- Rust `Parser::include` (parser.rs:264-288).  Not fuelled: it contains no
recursion. -/
def pInclude (st : PSt) : PRes Value :=
  match requireT .Hash st with
  | .ok _ st1 =>
    match identP st1 with
    | .ok name st2 =>
      if name = "include" then
        match requireT .LeftParen st2 with
        | .ok _ st3 =>
          match pString st3 with
          | .ok path st4 =>
            match requireT .RightParen st4 with
            | .ok _ st5 => .ok (.incl path) st5
            | .thrown d s => .thrown d s
            | .panicked => .panicked
            | .fuelOut => .fuelOut
          | .thrown d s => .thrown d s
          | .panicked => .panicked
          | .fuelOut => .fuelOut
        | .thrown d s => .thrown d s
        | .panicked => .panicked
        | .fuelOut => .fuelOut
      else if name = "prototype" then
        .thrown ⟨"Unexpected #prototype directive", posP st2⟩ st2
      else
        .thrown ⟨"Unknown directive `#" ++ name
          ++ "`. Valid directives are `include` and `prototype`.",
          posP st2⟩ st2
    | .thrown d s => .thrown d s
    | .panicked => .panicked
    | .fuelOut => .fuelOut
  | .thrown d s => .thrown d s
  | .panicked => .panicked
  | .fuelOut => .fuelOut

/-- Propagation of `?` on a parser `Result`. -/
def PRes.bind : PRes α → (α → PSt → PRes β) → PRes β
  | .ok a st, f => f a st
  | .thrown d st, _ => .thrown d st
  | .panicked, _ => .panicked
  | .fuelOut, _ => .fuelOut

mutual

/-- Rust `Parser::value` (parser.rs:45-102): dispatch on the token kind, then
catch any error of the chosen production by pushing the diagnostic and
substituting `Unit`. -/
def pValue : Nat → PSt → PRes Value
  | 0, _ => .fuelOut
  | fuel + 1, st =>
    let res : PRes Value :=
      match (peekT st).kind with
      | .Ident =>
        let start := (peekT st).startPos
        let (t, st1) := advanceP st
        pStructOrTuple fuel start (some t.text) st1
      | .LeftParen => pStructOrTuple fuel (peekT st).startPos none st
      | .LeftBrace => pMap fuel st
      | .LeftBracket => pSeq fuel st
      | .False =>
        let (_, st1) := advanceP st
        .ok (.bool false) st1
      | .True =>
        let (_, st1) := advanceP st
        .ok (.bool true) st1
      | .None =>
        let (_, st1) := advanceP st
        .ok (.option none) st1
      | .Number =>
        let (t, st1) := advanceP st
        match parseI64 t.text with
        | some i => .ok (.number (.integer i)) st1
        | none =>
          match parseF64 t.text with
          | some f => .ok (.number (.float f)) st1
          | none =>
            .thrown ⟨"Malformed number `" ++ t.text ++ "`", posP st1⟩ st1
      | .String => PRes.bind (pString st) (fun s st1 => .ok (.string s) st1)
      | .Hash => pInclude st
      | _ =>
        .thrown ⟨"Expected one of `\"`, `[`, `\x7b`, `(`, `true`, `false`, `None`, <ident>, <number>", posP st⟩ st
    match res with
    | .ok v st' => .ok v st'
    | .thrown d st' => .ok .unit { st' with errors := st'.errors ++ [d] }
    | .panicked => .panicked
    | .fuelOut => .fuelOut

/-- Rust `Parser::struct_or_tuple` (parser.rs:104-114): three-token lookahead
from the opening parenthesis. -/
def pStructOrTuple : Nat → Nat → Option String → PSt → PRes Value
  | 0, _, _, _ => .fuelOut
  | fuel + 1, start, name, st =>
    if (check2 st .Ident && check3 st .Colon)
        || (check2 st .Hash && check3 st .Ident
            && checkText3 st "prototype") then
      pStructure fuel start name st
    else pTuple fuel start name st

/-- Rust `Parser::structure` (parser.rs:116-171). -/
def pStructure : Nat → Nat → Option String → PSt → PRes Value
  | 0, _, _, _ => .fuelOut
  | fuel + 1, _start, name, st =>
    let (opened, st1) := consumeP .LeftParen st
    if opened then
      PRes.bind (pStructureLoop fuel [] none st1) (fun fp st2 =>
        let (closed, st3) := consumeP .RightParen st2
        if closed then .ok (.struct name fp.2 fp.1) st3
        else
          .thrown ⟨"Unexpected token `" ++ tokenKindStr (peekT st3).kind
            ++ "`", posP st3⟩ st3)
    else .ok (.struct name none []) st

/-- The field/prototype loop of `Parser::structure` (parser.rs:121-149). -/
def pStructureLoop : Nat → List (String × Value) → Option String → PSt →
    PRes (List (String × Value) × Option String)
  | 0, _, _, _ => .fuelOut
  | fuel + 1, fields, prototype, st =>
    let step : PRes (List (String × Value) × Option String) :=
      let (isHash, st1) := consumeP .Hash st
      if isHash then
        PRes.bind (identP st1) (fun text st2 =>
          if text ≠ "prototype" then
            .thrown ⟨"Unexpected token `" ++ tokenKindStr (peekT st2).kind
              ++ "`", posP st2⟩ st2
          else
            PRes.bind (requireT .LeftParen st2) (fun _ st3 =>
              PRes.bind (pString st3) (fun path st4 =>
                PRes.bind (requireT .RightParen st4) (fun _ st5 =>
                  .ok (fields, some path) st5))))
      else
        PRes.bind (requireT .Ident st1) (fun fieldTok st2 =>
          PRes.bind (requireT .Colon st2) (fun _ st3 =>
            PRes.bind (pValue fuel st3) (fun v st4 =>
              .ok (indexInsert fields fieldTok.text v, prototype) st4)))
    PRes.bind step (fun fp st' =>
      let (c, stN) := consumeP .Comma st'
      if !c then .ok fp stN
      else if (peekT stN).kind = .RightParen then .ok fp stN
      else pStructureLoop fuel fp.1 fp.2 stN)

/-- Rust `Parser::tuple` (parser.rs:173-193): only the fully anonymous empty
tuple collapses to `Unit`. -/
def pTuple : Nat → Nat → Option String → PSt → PRes Value
  | 0, _, _, _ => .fuelOut
  | fuel + 1, _start, name, st =>
    let finish := fun (values : List Value) (stf : PSt) =>
      if values.isEmpty && name.isNone then PRes.ok Value.unit stf
      else PRes.ok (Value.tuple name values) stf
    let (opened, st1) := consumeP .LeftParen st
    if opened then
      PRes.bind (pTupleLoop fuel [] st1) (fun values st2 =>
        PRes.bind (requireT .RightParen st2) (fun _ st3 =>
          finish values st3))
    else finish [] st

/-- The element loop of `Parser::tuple` (parser.rs:176-184). -/
def pTupleLoop : Nat → List Value → PSt → PRes (List Value)
  | 0, _, _ => .fuelOut
  | fuel + 1, values, st =>
    if (peekT st).kind = .RightParen then .ok values st
    else
      PRes.bind (pValue fuel st) (fun v st1 =>
        let (c, st2) := consumeP .Comma st1
        if !c then .ok (values ++ [v]) st2
        else pTupleLoop fuel (values ++ [v]) st2)

/-- Rust `Parser::map` (parser.rs:195-227). -/
def pMap : Nat → PSt → PRes Value
  | 0, _ => .fuelOut
  | fuel + 1, st =>
    PRes.bind (requireT .LeftBrace st) (fun _ st1 =>
      PRes.bind (pMapLoop fuel [] st1) (fun fields st2 =>
        let (closed, st3) := consumeP .RightBrace st2
        if closed then .ok (.map fields) st3
        else
          .thrown ⟨"Unexpected token `" ++ tokenKindStr (peekT st3).kind
            ++ "`", posP st3⟩ st3))

/-- The entry loop of `Parser::map` (parser.rs:198-209): it always parses at
least one `key : value` entry. -/
def pMapLoop : Nat → List (Value × Value) → PSt →
    PRes (List (Value × Value))
  | 0, _, _ => .fuelOut
  | fuel + 1, fields, st =>
    PRes.bind (pValue fuel st) (fun key st1 =>
      PRes.bind (requireT .Colon st1) (fun _ st2 =>
        PRes.bind (pValue fuel st2) (fun v st3 =>
          let fields' := mapIndexInsert fields key v
          let (c, st4) := consumeP .Comma st3
          if !c then .ok fields' st4
          else if (peekT st4).kind = .RightBrace then .ok fields' st4
          else pMapLoop fuel fields' st4)))

/-- Rust `Parser::seq` (parser.rs:229-262). -/
def pSeq : Nat → PSt → PRes Value
  | 0, _ => .fuelOut
  | fuel + 1, st =>
    PRes.bind (requireT .LeftBracket st) (fun _ st1 =>
      PRes.bind (pSeqLoop fuel [] st1) (fun values st2 =>
        let (closed, st3) := consumeP .RightBracket st2
        if closed then .ok (.seq values) st3
        else
          .thrown ⟨"Unexpected token `" ++ tokenKindStr (peekT st3).kind
            ++ "`", posP st3⟩ st3))

/-- The element loop of `Parser::seq` (parser.rs:235-244): a missing comma
ends the sequence. -/
def pSeqLoop : Nat → List Value → PSt → PRes (List Value)
  | 0, _, _ => .fuelOut
  | fuel + 1, values, st =>
    if (peekT st).kind = .RightBracket then .ok values st
    else
      PRes.bind (pValue fuel st) (fun v st1 =>
        let (c, st2) := consumeP .Comma st1
        if !c then .ok (values ++ [v]) st2
        else pSeqLoop fuel (values ++ [v]) st2)

end

/-- The outcome of `Parser::new` followed by `Parser::parse`
(parser.rs:21-43). -/
inductive ParseRun where
  | done (v : Value) (errors : List Diag)
  | panicked
  | fuelOut

/-- Rust `Parser::new(source, ..)` + `Parser::parse()`: run the lexer, seed the
diagnostics with the lexer's errors, parse one value, then append a single
"Expected end of input." diagnostic if unconsumed tokens remain.  The fuel
is ample for the cursor-advancing recursion of the parser. -/
def parserRun (source : String) : ParseRun :=
  let lx := scan source
  if lx.panicked then .panicked
  else
    match pValue (4 * lx.tokens.length + 16) ⟨lx.tokens, 0, lx.errors⟩ with
    | .ok v st1 =>
      if isAtEnd st1 then .done v st1.errors
      else .done v (st1.errors ++ [⟨"Expected end of input.", posP st1⟩])
    | .thrown _ _ => .panicked
    | .panicked => .panicked
    | .fuelOut => .fuelOut

/-- Result of the public `parse` (lib.rs:31-49). -/
inductive ParseResult where
  | ok (v : Value)
  | err (value : Value) (errors : List Diag)
  | panicked
  | fuelOut

/-- Rust `parse` (lib.rs:31-49): `Ok(value)` when the diagnostics are empty,
otherwise `Err` carrying the best-effort value and every diagnostic. -/
def parse (source : String) : ParseResult :=
  match parserRun source with
  | .done v errs => if errs.isEmpty then .ok v else .err v errs
  | .panicked => .panicked
  | .fuelOut => .fuelOut

/-- Rust `struct Loader` state (lib.rs:64-69). -/
structure LoaderState where
  errors : List Diag
  sources : List String
  resolve_stack : List String
  cache : List (String × Option Value)

/-- Rust `HashMap::get` on the loader cache. -/
def lookupCache : List (String × Option Value) → String →
    Option (Option Value)
  | [], _ => none
  | (k, v) :: rest, p => if k = p then some v else lookupCache rest p

/-- Rust `HashMap::insert` on the loader cache. -/
def insertCache : List (String × Option Value) → String → Option Value →
    List (String × Option Value)
  | [], k, v => [(k, v)]
  | (k', v') :: rest, k, v =>
    if k' = k then (k, v) :: rest else (k', v') :: insertCache rest k v

/-- Rust `IndexMap::contains_key` on struct fields. -/
def containsKeyS (fields : List (String × Value)) (k : String) : Bool :=
  fields.any (fun p => p.1 == k)

/-- First value stored under a field name. -/
def lookupS : List (String × Value) → String → Option Value
  | [], _ => none
  | (k', v) :: rest, k => if k' = k then some v else lookupS rest k

/-- The prototype merge loop of `Loader::resolve` (lib.rs:102-106): for each
prototype field, insert it (that is, append it, since insertion only happens
when the key is absent) unless the composing struct already has the name. -/
def protoMerge (fields protoFields : List (String × Value)) :
    List (String × Value) :=
  protoFields.foldl
    (fun fs nv => if containsKeyS fs nv.1 then fs else fs ++ [(nv.1, nv.2)])
    fields

/-- The file system as seen through `read_to_string` + `parse`
(lib.rs:51-62): a canonical path maps to the parsed value and the parse
diagnostics of that file, or to `none` when reading fails.  The model is a
single flat directory: paths are already canonical and
`origin.parent().join(p)` is `p`. -/
def FS : Type := String → Option (Value × List Diag)

/-- Rust `origin.parent().unwrap().join(path)` in the single-directory model. -/
def joinPath (_origin : String) (path : String) : String := path

/-- Outcome of a loader step: a result with the updated loader state, an
`io::Error` propagated by `?`, the `todo!("CYCLE")` panic, or fuel
exhaustion of the embedding (the source has no fuel: a run that exhausts
every fuel is a run that does not terminate). -/
inductive LRes (α : Type) where
  | ok (a : α) (st : LoaderState)
  | ioError
  | panicked
  | fuelOut

/-- Propagation of `?` on loader results. -/
def LRes.bind : LRes α → (α → LoaderState → LRes β) → LRes β
  | .ok a st, f => f a st
  | .ioError, _ => .ioError
  | .panicked, _ => .panicked
  | .fuelOut, _ => .fuelOut

mutual

/-- Rust `Loader::load` (lib.rs:72-87).  Canonicalization is the identity on the
model's path names but fails (an `io::Error`) when the file does not exist.
Note the cache is only ever filled with `Some(value)` (lib.rs:85), so the
`Some(None) => todo!("CYCLE")` arm is unreachable, and `resolve_stack` is
pushed and popped but never read: nothing stops a cyclic reference from
recursing. -/
def loadF (fs : FS) : Nat → LoaderState → String → LRes Value
  | 0, _, _ => .fuelOut
  | fuel + 1, st, path =>
    match fs path with
    | none => .ioError
    | some (v, ds) =>
      match lookupCache st.cache path with
      | some none => .panicked
      | some (some cached) => .ok cached st
      | none =>
        let st1 : LoaderState :=
          { st with resolve_stack := st.resolve_stack ++ [path] }
        let st2 : LoaderState :=
          { st1 with errors := st1.errors ++ ds,
                     sources := st1.sources ++ [path] }
        LRes.bind (resolveF fs fuel st2 v path) (fun v' st3 =>
          let st4 : LoaderState :=
            { st3 with resolve_stack := st3.resolve_stack.dropLast }
          .ok v' { st4 with cache := insertCache st4.cache path (some v') })

/-- Rust `Loader::resolve` (lib.rs:89-135).  `Include` nodes are replaced by the
loaded file; a struct prototype is loaded, merged when it is a struct
(otherwise only an `eprintln` happens), cleared, and the struct's field
values are resolved; map *values* and sequence elements are resolved; every
other variant — including `Tuple` and `Option` — is left untouched
(lib.rs:126-132). -/
def resolveF (fs : FS) : Nat → LoaderState → Value → String → LRes Value
  | 0, _, _, _ => .fuelOut
  | fuel + 1, st, v, origin =>
    match v with
    | .incl path => loadF fs fuel st (joinPath origin path)
    | .struct name prototype fields =>
      match prototype with
      | some path =>
        LRes.bind (loadF fs fuel st (joinPath origin path)) (fun iv st1 =>
          let fields1 :=
            match iv with
            | .struct _ _ protoFields => protoMerge fields protoFields
            | _ => fields
          LRes.bind (resolveFieldsF fs fuel st1 fields1 origin)
            (fun fields2 st2 => .ok (.struct name none fields2) st2))
      | none =>
        LRes.bind (resolveFieldsF fs fuel st fields origin)
          (fun fields2 st2 => .ok (.struct name none fields2) st2)
    | .map items =>
      LRes.bind (resolveMapValsF fs fuel st items origin)
        (fun items' st' => .ok (.map items') st')
    | .seq vs =>
      LRes.bind (resolveSeqF fs fuel st vs origin)
        (fun vs' st' => .ok (.seq vs') st')
    | other => .ok other st

/-- The `fields.values_mut()` resolution loop (lib.rs:112-114). -/
def resolveFieldsF (fs : FS) : Nat → LoaderState → List (String × Value) →
    String → LRes (List (String × Value))
  | 0, _, _, _ => .fuelOut
  | _ + 1, st, [], _ => .ok [] st
  | fuel + 1, st, (n, v) :: rest, origin =>
    LRes.bind (resolveF fs fuel st v origin) (fun v' st1 =>
      LRes.bind (resolveFieldsF fs fuel st1 rest origin) (fun rest' st2 =>
        .ok ((n, v') :: rest') st2))

/-- The `items.0.values_mut()` resolution loop (lib.rs:116-120): only the
values are resolved, the keys are not. -/
def resolveMapValsF (fs : FS) : Nat → LoaderState →
    List (Value × Value) → String → LRes (List (Value × Value))
  | 0, _, _, _ => .fuelOut
  | _ + 1, st, [], _ => .ok [] st
  | fuel + 1, st, (k, v) :: rest, origin =>
    LRes.bind (resolveF fs fuel st v origin) (fun v' st1 =>
      LRes.bind (resolveMapValsF fs fuel st1 rest origin) (fun rest' st2 =>
        .ok ((k, v') :: rest') st2))

/-- The sequence resolution loop (lib.rs:121-125). -/
def resolveSeqF (fs : FS) : Nat → LoaderState → List Value → String →
    LRes (List Value)
  | 0, _, _, _ => .fuelOut
  | _ + 1, st, [], _ => .ok [] st
  | fuel + 1, st, v :: rest, origin =>
    LRes.bind (resolveF fs fuel st v origin) (fun v' st1 =>
      LRes.bind (resolveSeqF fs fuel st1 rest origin) (fun rest' st2 =>
        .ok (v' :: rest') st2))

end

/-- The empty loader state built by the public `load` (lib.rs:138-151). -/
def initLoaderState : LoaderState := ⟨[], [], [], []⟩

/-- Outcome of the public `load`. -/
inductive LoadTopRes where
  | ok (value : Value) (errors : List Diag) (sources : List String)
  | ioError
  | panicked
  | fuelOut

/-- The public `load` (lib.rs:138-151). -/
def load (fs : FS) (fuel : Nat) (path : String) : LoadTopRes :=
  match loadF fs fuel initLoaderState path with
  | .ok v st => .ok v st.errors st.sources
  | .ioError => .ioError
  | .panicked => .panicked
  | .fuelOut => .fuelOut

mutual

/-- Whether a value tree contains an `Include` node anywhere. -/
def containsInclude : Value → Bool
  | .incl _ => true
  | .map ps => pairsContainInclude ps
  | .struct _ _ fields => fieldsContainInclude fields
  | .option (some v) => containsInclude v
  | .seq vs => listContainsInclude vs
  | .tuple _ vs => listContainsInclude vs
  | _ => false
termination_by v => sizeOf v
decreasing_by all_goals (simp_wf <;> omega)

def listContainsInclude : List Value → Bool
  | [] => false
  | v :: rest => containsInclude v || listContainsInclude rest
termination_by vs => sizeOf vs
decreasing_by all_goals (simp_wf <;> omega)

def pairsContainInclude : List (Value × Value) → Bool
  | [] => false
  | (k, v) :: rest =>
    containsInclude k || containsInclude v || pairsContainInclude rest
termination_by ps => sizeOf ps
decreasing_by all_goals (simp_wf <;> omega)

def fieldsContainInclude : List (String × Value) → Bool
  | [] => false
  | (_, v) :: rest => containsInclude v || fieldsContainInclude rest
termination_by fields => sizeOf fields
decreasing_by all_goals (simp_wf <;> omega)

end

/-- A file system with one file `a.ron` whose parse result is
`#include("a.ron")`: a file that directly includes itself. -/
def fsCyclic : FS := fun p =>
  if p = "a.ron" then some (Value.incl "a.ron", []) else none

/-- A file system whose root file parses to a tuple holding an `Include`
of `b.ron` (source text `(#include("b.ron"),)`), with `b.ron` a unit. -/
def fsIncludeTuple : FS := fun p =>
  if p = "root.ron" then some (Value.tuple none [Value.incl "b.ron"], [])
  else if p = "b.ron" then some (Value.unit, [])
  else none

/-- The spec's prototype example: `a.ron` is `A(#prototype("b.ron"), x: 1)`
and `b.ron` is `B(x: 2, y: 3)`. -/
def fsProto : FS := fun p =>
  if p = "a.ron" then
    some (Value.struct (some "A") (some "b.ron")
      [("x", Value.number (Number.integer 1))], [])
  else if p = "b.ron" then
    some (Value.struct (some "B") none
      [("x", Value.number (Number.integer 2)),
       ("y", Value.number (Number.integer 3))], [])
  else none

/-- C8: the fully anonymous empty tuple `()` parses to `Unit`; the named
empty tuple `Foo()` parses to `Tuple(Some("Foo"), [])` and is not folded to
`Unit`; the non-empty anonymous tuple `(1)` parses to `Tuple(None, [1])`. -/
theorem c8_tuple_unit_parse :
    parse "()" = ParseResult.ok Value.unit
    ∧ parse "Foo()" = ParseResult.ok (Value.tuple (some "Foo") [])
    ∧ parse "(1)"
        = ParseResult.ok (Value.tuple none [Value.number (Number.integer 1)]) :=
  ⟨rfl, rfl, rfl⟩

/-- C10: parsing `{}` does not produce an empty map: the map production
demands at least one entry, so `parse` returns `Err` with `Unit` as the
best-effort value and a non-empty diagnostics list. -/
theorem c10_empty_map_error :
    parse "\x7b\x7d"
      = ParseResult.err Value.unit
          [⟨"Expected one of `\"`, `[`, `\x7b`, `(`, `true`, `false`, `None`, <ident>, <number>", 1⟩,
           ⟨"Unexpected token", 1⟩,
           ⟨"Expected end of input.", 1⟩]
    ∧ ([⟨"Expected one of `\"`, `[`, `\x7b`, `(`, `true`, `false`, `None`, <ident>, <number>", 1⟩,
        ⟨"Unexpected token", 1⟩,
        ⟨"Expected end of input.", 1⟩] : List Diag) ≠ [] :=
  ⟨rfl, by simp⟩

/-- C2 is false on the code: a successful `load` can return a tree that
still contains an `Include` node, because `Loader::resolve` leaves tuple
elements (as well as map keys and `Option` payloads) untouched.  Here the
root file parses to `(#include("b.ron"),)` and the include survives
resolution. -/
theorem c2_include_survives_tuple :
    load fsIncludeTuple 10 "root.ron"
      = LoadTopRes.ok (Value.tuple none [Value.incl "b.ron"]) [] ["root.ron"]
    ∧ containsInclude (Value.tuple none [Value.incl "b.ron"]) = true :=
  ⟨rfl, by simp [containsInclude, listContainsInclude]⟩

/-- C3 is false on the code: `Map`'s `PartialEq` zips the two pair
sequences without comparing lengths, so a map is equal to any extension of
itself (a proper prefix is not unequal, contrary to the claim and to the
impl's own doc comment), while `Map`'s `Ord` orders the shorter prefix
strictly first. -/
theorem c3_map_prefix_equal :
    mapEqB [] [(Value.unit, Value.unit)] = true
    ∧ mapEqB [(Value.string "a", Value.number (Number.integer 1))]
        [(Value.string "a", Value.number (Number.integer 1)),
         (Value.string "b", Value.number (Number.integer 2))] = true
    ∧ mapCmpB [] [(Value.unit, Value.unit)] = Ordering.lt
    ∧ valueEq (Value.map []) (Value.map [(Value.unit, Value.unit)]) = true := by
  refine ⟨by simp [mapEqB, pairsZipAllEq], ?_, by simp [mapCmpB, pairsCmpLex], ?_⟩
  · simp [mapEqB, pairsZipAllEq, valueEq, numberEq]
  · simp [valueEq, pairsZipAllEq]

/-- C4: two NaN floats are equal and hash to the same value; a NaN float
compares (by `cmp` and `partial_cmp`) strictly below every non-NaN float,
negative infinity included; `Number` equality is reflexive and its ordering
is total (`partial_cmp` never returns `None`, so `Ord`'s unwrap never
panics). -/
theorem c4_float_nan_semantics :
    (∀ p q, floatEq (F64.nan p) (F64.nan q) = true)
    ∧ (∀ p q, floatHash (F64.nan p) = floatHash (F64.nan q))
    ∧ (∀ p f, f64IsNan f = false →
        floatCmp (F64.nan p) f = Ordering.lt
        ∧ floatPartialCmp (F64.nan p) f = some Ordering.lt)
    ∧ (∀ n : Number, numberEq n n = true)
    ∧ (∀ a b : Number, (numberPartialCmp a b).isSome = true) := by
  refine ⟨?_, ?_, ?_, ?_, ?_⟩
  · intro p q
    simp [floatEq, f64IsNan]
  · intro p q
    rfl
  · intro p f hf
    cases f <;> simp_all [floatCmp, floatPartialCmp, f64IsNan]
  · intro n
    cases n with
    | integer i => simp [numberEq]
    | float f => cases f <;> simp [numberEq, floatEq, f64IsNan, f64Eq]
  · intro a b
    cases a <;> cases b <;>
      simp [numberPartialCmp, floatPartialCmp, f64PartialCmpRaw]
    case float.float f g => cases f <;> cases g <;> simp [f64IsNan, f64PartialCmpRaw]

/-- Witness for C4's conditional conjunct, at NaN versus negative
infinity. -/
theorem c4_float_nan_semantics_witness :
    floatCmp (F64.nan 0) F64.negInf = Ordering.lt
    ∧ floatPartialCmp (F64.nan 0) F64.negInf = some Ordering.lt :=
  c4_float_nan_semantics.2.2.1 0 F64.negInf rfl

/-- The derived `Ord` on `Option<String>` yields `Equal` exactly on equal
values. -/
theorem optCmp_strCmp_eq_iff (a b : Option String) :
    optCmp strCmp a b = Ordering.eq ↔ a = b := by
  cases a <;> cases b <;> simp [optCmp, strCmp]

/-- The length check plus truncating zip of `Struct`'s `PartialEq` is
exactly pointwise correspondence of the two field sequences. -/
theorem fields_len_zip_iff (as_ bs : List (String × Value)) :
    ((as_.length == bs.length) && fieldsZipAllEq as_ bs) = true ↔
      List.Forall₂ (fun a b => a.1 = b.1 ∧ valueEq a.2 b.2 = true) as_ bs := by
  induction as_ generalizing bs with
  | nil => cases bs <;> simp [fieldsZipAllEq]
  | cons a rest ih =>
    cases bs with
    | nil => simp [fieldsZipAllEq]
    | cons b bs' =>
      obtain ⟨k1, v1⟩ := a
      obtain ⟨k2, v2⟩ := b
      rw [List.forall₂_cons]
      rw [← ih bs']
      simp [fieldsZipAllEq]
      tauto

/-- C6's ordering half is false on the code: two structs that differ only
in `prototype` are unequal but `Ord::cmp` and `partial_cmp` both return
`Equal` (the differing component does not order them); `Ord::cmp` even
returns `Equal` for structs that differ only in `name`. -/
theorem c6_struct_order_counterexample :
    structEqB ⟨none, some "a", []⟩ ⟨none, some "b", []⟩ = false
    ∧ structCmpB ⟨none, some "a", []⟩ ⟨none, some "b", []⟩ = Ordering.eq
    ∧ structPartialCmpB ⟨none, some "a", []⟩ ⟨none, some "b", []⟩
        = some Ordering.eq
    ∧ structEqB ⟨some "a", none, []⟩ ⟨some "b", none, []⟩ = false
    ∧ structCmpB ⟨some "a", none, []⟩ ⟨some "b", none, []⟩ = Ordering.eq := by
  refine ⟨?_, ?_, ?_, ?_, ?_⟩
  · simp [structEqB, fieldsZipAllEq]
  · simp [structCmpB, fieldsCmpLex]
  · simp [structPartialCmpB, optCmp, fieldsPartialCmpLex]
  · simp [structEqB, fieldsZipAllEq]
  · simp [structCmpB, fieldsCmpLex]

/-- C6 amended: equality of `Struct` values is determined by the triple
(name, prototype, ordered field sequence); ordering is not — `Ord::cmp`
depends only on the field sequences (name and prototype are ignored), and
`partial_cmp` compares the names first and then the field sequences,
ignoring the prototypes, so only a name difference orders two structs. -/
theorem c6_struct_eq_order_amended :
    (∀ s1 s2 : StructV, structEqB s1 s2 = true ↔
        (s1.name = s2.name ∧ s1.prototype = s2.prototype
          ∧ List.Forall₂ (fun a b => a.1 = b.1 ∧ valueEq a.2 b.2 = true)
              s1.fields s2.fields))
    ∧ (∀ s1 s2 : StructV,
        structCmpB s1 s2
          = structCmpB ⟨none, none, s1.fields⟩ ⟨none, none, s2.fields⟩)
    ∧ (∀ s1 s2 : StructV,
        structPartialCmpB s1 s2
          = structPartialCmpB ⟨s1.name, none, s1.fields⟩
              ⟨s2.name, none, s2.fields⟩)
    ∧ (∀ s1 s2 : StructV, s1.name ≠ s2.name →
        structPartialCmpB s1 s2 = some (optCmp strCmp s1.name s2.name)) := by
  refine ⟨?_, fun s1 s2 => rfl, fun s1 s2 => rfl, ?_⟩
  · intro s1 s2
    rw [← fields_len_zip_iff]
    simp [structEqB]
    tauto
  · intro s1 s2 h
    have hne : optCmp strCmp s1.name s2.name ≠ Ordering.eq := fun he =>
      h ((optCmp_strCmp_eq_iff _ _).mp he)
    unfold structPartialCmpB
    cases hc : optCmp strCmp s1.name s2.name with
    | lt => simp [hc]
    | eq => exact absurd hc hne
    | gt => simp [hc]

/-- Witness for C6's amended theorem: the equality characterization and the
name-decides-ordering conjunct at concrete structs. -/
theorem c6_struct_eq_order_amended_witness :
    structEqB ⟨none, none, []⟩ ⟨none, none, []⟩ = true
    ∧ structPartialCmpB ⟨some "a", none, []⟩ ⟨some "b", none, []⟩
        = some (optCmp strCmp (some "a") (some "b")) :=
  ⟨(c6_struct_eq_order_amended.1 _ _).mpr ⟨rfl, rfl, List.Forall₂.nil⟩,
   c6_struct_eq_order_amended.2.2.2 _ _ (by decide)⟩

/-- One step of the prototype merge fold. -/
theorem protoMerge_cons (own : List (String × Value)) (p : String × Value)
    (ps : List (String × Value)) :
    protoMerge own (p :: ps)
      = protoMerge (if containsKeyS own p.1 then own else own ++ [p]) ps := by
  simp only [protoMerge, List.foldl_cons]

/-- The merge only appends to the composing struct's fields. -/
theorem protoMerge_exists_append (proto own : List (String × Value)) :
    ∃ rest, protoMerge own proto = own ++ rest := by
  induction proto generalizing own with
  | nil => exact ⟨[], by simp [protoMerge]⟩
  | cons p ps ih =>
    rw [protoMerge_cons]
    by_cases hc : containsKeyS own p.1
    · simpa [hc] using ih own
    · obtain ⟨rest, hrest⟩ := ih (own ++ [p])
      exact ⟨p :: rest, by simp [hc, hrest]⟩

/-- A name present on the left is looked up on the left. -/
theorem lookupS_append_left (own rest : List (String × Value)) (k : String)
    (h : containsKeyS own k = true) :
    lookupS (own ++ rest) k = lookupS own k := by
  induction own with
  | nil => simp [containsKeyS] at h
  | cons p own' ih =>
    by_cases hk : p.1 = k
    · simp [lookupS, hk]
    · simp only [containsKeyS, List.any_cons, Bool.or_eq_true, beq_iff_eq]
        at h
      rcases h with h | h
    
      · exact absurd h hk
      · simp [lookupS, hk, ih (by simpa [containsKeyS] using h)]

/-- A name absent on the left is looked up on the right. -/
theorem lookupS_append_right (own rest : List (String × Value)) (k : String)
    (h : containsKeyS own k = false) :
    lookupS (own ++ rest) k = lookupS rest k := by
  induction own with
  | nil => simp
  | cons p own' ih =>
    simp only [containsKeyS, List.any_cons, Bool.or_eq_false_iff,
      beq_eq_false_iff_ne, ne_eq] at h
    simp [lookupS, h.1, ih (by simpa [containsKeyS] using h.2)]

/-- An absent name is looked up as `none`. -/
theorem lookupS_eq_none (fields : List (String × Value)) (k : String)
    (h : containsKeyS fields k = false) :
    lookupS fields k = none := by
  induction fields with
  | nil => rfl
  | cons p fs ih =>
    simp only [containsKeyS, List.any_cons, Bool.or_eq_false_iff,
      beq_eq_false_iff_ne, ne_eq] at h
    simp [lookupS, h.1, ih (by simpa [containsKeyS] using h.2)]

/-- Own fields always win: a name present in the composing struct keeps its
value through the merge. -/
theorem protoMerge_lookup_own (own proto : List (String × Value))
    (k : String) (h : containsKeyS own k = true) :
    lookupS (protoMerge own proto) k = lookupS own k := by
  obtain ⟨rest, hrest⟩ := protoMerge_exists_append proto own
  rw [hrest, lookupS_append_left own rest k h]

/-- A name absent from the composing struct is inherited from the
prototype. -/
theorem protoMerge_lookup_proto (proto own : List (String × Value))
    (k : String) (h : containsKeyS own k = false) :
    lookupS (protoMerge own proto) k = lookupS proto k := by
  induction proto generalizing own with
  | nil => simp [protoMerge, lookupS, lookupS_eq_none own k h]
  | cons p ps ih =>
    rw [protoMerge_cons]
    by_cases hc : containsKeyS own p.1
    · have hpk : p.1 ≠ k := fun he => by simp [he, h] at hc
      simp [hc, lookupS, hpk, ih own h]
    · by_cases hpk : p.1 = k
      · have hcont : containsKeyS (own ++ [p]) k = true := by
          simp [containsKeyS, hpk]
        rw [if_neg hc, protoMerge_lookup_own _ ps k hcont,
          lookupS_append_right own [p] k h]
        simp [lookupS, hpk]
      · have hcont : containsKeyS (own ++ [p]) k = false := by
          simp [containsKeyS, hpk]
          simpa [containsKeyS] using h
        simp [hc, lookupS, hpk, ih (own ++ [p]) hcont,
          lookupS_append_right own [p] k h]

/-- With distinct prototype field names (an `IndexMap` invariant), the merge
is exactly: the composing struct's fields, in order, followed by the
prototype-only fields, in prototype order. -/
theorem protoMerge_eq_append_filter (proto own : List (String × Value))
    (hnd : (proto.map Prod.fst).Nodup) :
    protoMerge own proto
      = own ++ proto.filter (fun nv => !(containsKeyS own nv.1)) := by
  induction proto generalizing own with
  | nil => simp [protoMerge]
  | cons p ps ih =>
    simp only [List.map_cons, List.nodup_cons] at hnd
    rw [protoMerge_cons]
    by_cases hc : containsKeyS own p.1
    · simp [hc, ih own hnd.2]
    · rw [if_neg hc, ih (own ++ [p]) hnd.2]
      have hfilter :
          ps.filter (fun nv => !(containsKeyS (own ++ [p]) nv.1))
            = ps.filter (fun nv => !(containsKeyS own nv.1)) := by
        apply List.filter_congr
        intro x hx
        have hne : p.1 ≠ x.1 := fun he => hnd.1 (he ▸ List.mem_map_of_mem Prod.fst hx)
        have hck : containsKeyS (own ++ [p]) x.1 = containsKeyS own x.1 := by
          simp [containsKeyS, List.any_append, hne]
        simp [hck]
      simp [hfilter, hc]

/-- C5: when `load` resolves a struct with a prototype path whose file
resolves to a struct, prototype fields absent from the composing struct are
appended after its own fields (in prototype order), names present in both
keep the composing struct's value, and the prototype is cleared to `None` —
demonstrated end to end on the spec's example `A(#prototype("b.ron"), x: 1)`
against `b.ron` = `B(x: 2, y: 3)`. -/
theorem c5_prototype_merge :
    (∀ own proto, ((proto.map Prod.fst).Nodup : Prop) →
        protoMerge own proto
          = own ++ proto.filter (fun nv => !(containsKeyS own nv.1)))
    ∧ (∀ own proto k, containsKeyS own k = true →
        lookupS (protoMerge own proto) k = lookupS own k)
    ∧ (∀ own proto k, containsKeyS own k = false →
        lookupS (protoMerge own proto) k = lookupS proto k)
    ∧ load fsProto 10 "a.ron"
        = LoadTopRes.ok
            (Value.struct (some "A") none
              [("x", Value.number (Number.integer 1)),
               ("y", Value.number (Number.integer 3))]) [] ["a.ron", "b.ron"] :=
  ⟨fun own proto hnd => protoMerge_eq_append_filter proto own hnd,
   fun own proto k h => protoMerge_lookup_own own proto k h,
   fun own proto k h => protoMerge_lookup_proto proto own k h,
   rfl⟩

/-- Witness for C5 at the spec's example fields. -/
theorem c5_prototype_merge_witness :
    protoMerge [("x", Value.number (Number.integer 1))]
        [("x", Value.number (Number.integer 2)),
         ("y", Value.number (Number.integer 3))]
      = [("x", Value.number (Number.integer 1))]
          ++ [("x", Value.number (Number.integer 2)),
              ("y", Value.number (Number.integer 3))].filter
               (fun nv =>
                 !(containsKeyS [("x", Value.number (Number.integer 1))] nv.1))
    ∧ lookupS (protoMerge [("x", Value.number (Number.integer 1))]
        [("x", Value.number (Number.integer 2)),
         ("y", Value.number (Number.integer 3))]) "x"
      = lookupS [("x", Value.number (Number.integer 1))] "x"
    ∧ lookupS (protoMerge [("x", Value.number (Number.integer 1))]
        [("x", Value.number (Number.integer 2)),
         ("y", Value.number (Number.integer 3))]) "y"
      = lookupS [("x", Value.number (Number.integer 2)),
                 ("y", Value.number (Number.integer 3))] "y" :=
  ⟨c5_prototype_merge.1 _ _ (by simp),
   c5_prototype_merge.2.1 _ _ "x" (by decide),
   c5_prototype_merge.2.2.1 _ _ "y" (by decide)⟩

/-- C9: `parse` returns `Ok` with the parsed value exactly when the run
produced no diagnostics; with at least one diagnostic it returns `Err`
carrying the best-effort value together with the entire diagnostic list. -/
theorem c9_parse_result_contract :
    ∀ (src : String) (v : Value) (errs : List Diag),
      parserRun src = ParseRun.done v errs →
      (parse src = ParseResult.ok v ↔ errs = [])
      ∧ (errs ≠ [] → parse src = ParseResult.err v errs) := by
  intro src v errs h
  have hp : parse src
      = if errs.isEmpty then ParseResult.ok v else ParseResult.err v errs := by
    unfold parse
    rw [h]
  rcases errs with _ | ⟨d, ds⟩
  · simp only [List.isEmpty_nil, if_true] at hp
    simp [hp]
  · simp only [List.isEmpty_cons, if_false] at hp
    simp [hp]

/-- Witness for C9 at the source text `true`. -/
theorem c9_parse_result_contract_witness :
    parse "true" = ParseResult.ok (Value.bool true) :=
  (c9_parse_result_contract "true" (Value.bool true) [] rfl).1.mpr rfl

/-- The character loops do not touch the token list. -/
theorem munchWhile_tokens (p : Char → Bool) :
    ∀ (src : List Char) (st : LexSt), (munchWhile p src st).tokens = st.tokens := by
  intro src
  induction src with
  | nil => intro st; rfl
  | cons c rest ih =>
    intro st
    simp only [munchWhile]
    split
    · rw [ih]
    · rfl

/-- The string loop does not touch the token list. -/
theorem lexString_tokens :
    ∀ (src : List Char) (escaped : Bool) (st : LexSt),
      (lexString escaped src st).tokens = st.tokens := by
  intro src
  induction src with
  | nil => intro escaped st; rfl
  | cons c rest ih =>
    intro escaped st
    simp only [lexString]
    split
    · rfl
    · rw [ih]

/-- Rust `Lexer::consume` does not touch the token list. -/
theorem lexConsume_tokens (e : Char) (st : LexSt) :
    (lexConsume e st).2.tokens = st.tokens := by
  unfold lexConsume
  cases hs : st.source with
  | nil => rfl
  | cons c rest =>
    by_cases h : c = e
    · simp [h, lexAdvance, hs]
    · simp [h]

/-- Rust `scan_token` never yields a `Hash` token (the source has no `#` arm:
`#` falls into the unexpected-character error arm), and it never modifies
the token list. -/
theorem scanToken_shape (st : LexSt) :
    (∀ k, (scanToken st).1 = ScanRes.tk k → k ≠ TokenKind.Hash)
    ∧ (scanToken st).2.tokens = st.tokens := by
  unfold scanToken
  cases hadv : lexAdvance st with
  | mk o st2 =>
    have h2 : st2.tokens = st.tokens := by
      unfold lexAdvance at hadv
      cases hs : st.source with
      | nil => rw [hs] at hadv; cases hadv; rfl
      | cons c rest => rw [hs] at hadv; cases hadv; rfl
    cases o with
    | none => exact ⟨fun k hk => by cases hk; decide, h2⟩
    | some c =>
      by_cases h1 : c = '('
      · simp only [if_pos h1]
        exact ⟨fun k hk => by cases hk; decide, h2⟩
      simp only [if_neg h1]
      by_cases h2p : c = ')'
      · simp only [if_pos h2p]
        exact ⟨fun k hk => by cases hk; decide, h2⟩
      simp only [if_neg h2p]
      by_cases h3 : c = lbraceChar
      · simp only [if_pos h3]
        exact ⟨fun k hk => by cases hk; decide, h2⟩
      simp only [if_neg h3]
      by_cases h4 : c = rbraceChar
      · simp only [if_pos h4]
        exact ⟨fun k hk => by cases hk; decide, h2⟩
      simp only [if_neg h4]
      by_cases h5 : c = '['
      · simp only [if_pos h5]
        exact ⟨fun k hk => by cases hk; decide, h2⟩
      simp only [if_neg h5]
      by_cases h6 : c = ']'
      · simp only [if_pos h6]
        exact ⟨fun k hk => by cases hk; decide, h2⟩
      simp only [if_neg h6]
      by_cases h7 : c = ':'
      · simp only [if_pos h7]
        exact ⟨fun k hk => by cases hk; decide, h2⟩
      simp only [if_neg h7]
      by_cases h8 : c = ','
      · simp only [if_pos h8]
        exact ⟨fun k hk => by cases hk; decide, h2⟩
      simp only [if_neg h8]
      by_cases h9 : c = '/'
      · simp only [if_pos h9]
        cases hcc : lexConsume '/' st2 with
        | mk b stA =>
          have hA : stA.tokens = st2.tokens := by
            have := lexConsume_tokens '/' st2
            rw [hcc] at this
            exact this
          cases b with
          | true =>
            exact ⟨fun k hk => by cases hk; decide,
              by (rw [munchWhile_tokens, hA]; exact h2)⟩
          | false =>
            cases hdd : lexConsume '*' st2 with
            | mk b2 stB =>
              have hB : stB.tokens = st2.tokens := by
                have := lexConsume_tokens '*' st2
                rw [hdd] at this
                exact this
              cases b2 with
              | true =>
                exact ⟨fun k hk => by cases hk; decide,
                  by (rw [munchWhile_tokens, hB]; exact h2)⟩
              | false => exact ⟨(fun k hk => nomatch hk), h2⟩
      simp only [if_neg h9]
      by_cases h10 : (c = ' ' || c = '\x0d' || c = '\t') = true
      · simp only [if_pos h10]
        exact ⟨fun k hk => by cases hk; decide, h2⟩
      simp only [if_neg h10]
      by_cases h11 : c = '\n'
      · simp only [if_pos h11]
        exact ⟨fun k hk => by cases hk; decide, h2⟩
      simp only [if_neg h11]
      by_cases h12 : (c.isDigit || c = '-') = true
      · simp only [if_pos h12]
        exact ⟨fun k hk => by cases hk; decide,
          by rw [munchWhile_tokens]; exact h2⟩
      simp only [if_neg h12]
      by_cases h13 : c = '"'
      · simp only [if_pos h13]
        exact ⟨fun k hk => by cases hk; decide,
          by rw [lexString_tokens]; exact h2⟩
      simp only [if_neg h13]
      by_cases h14 : (c = '_' || c.isAlpha) = true
      · simp only [if_pos h14]
        exact ⟨fun k hk => by cases hk; decide,
          by rw [munchWhile_tokens]; exact h2⟩
      simp only [if_neg h14]
      exact ⟨(fun k hk => nomatch hk), h2⟩

/-- The scan loop never accumulates a `Hash` token. -/
theorem scanGo_no_hash : ∀ (fuel : Nat) (st : LexSt),
    st.tokens.filter (fun t => t.kind == TokenKind.Hash) = [] →
    (scanGo fuel st).tokens.filter (fun t => t.kind == TokenKind.Hash) = [] := by
  intro fuel
  induction fuel with
  | zero => intro st h; exact h
  | succ fuel ih =>
    intro st h
    unfold scanGo
    cases hs : scanToken st with
    | mk res st' =>
      have htok : st'.tokens = st.tokens := by
        have hh := (scanToken_shape st).2
        rw [hs] at hh
        exact hh
      cases res with
      | panicked => simpa [htok] using h
      | lexErr d => exact ih _ (by simpa [htok] using h)
      | tk k =>
        have hkh : k ≠ TokenKind.Hash := by
          have hh := (scanToken_shape st).1 k
          rw [hs] at hh
          exact hh rfl
        cases k
        case Whitespace => exact ih _ (by simpa [htok] using h)
        case Comment => exact ih _ (by simpa [htok] using h)
        case Newline => exact ih _ (by simpa [htok] using h)
        case Hash => exact absurd rfl hkh
        case Eof => simp [List.filter_append, htok, h]
        case Ident =>
          apply ih
          simp only [List.filter_append, htok, h, List.nil_append]
          split_ifs <;> simp
        case LeftParen =>
          apply ih
          simp [List.filter_append, htok, h]
        case RightParen =>
          apply ih
          simp [List.filter_append, htok, h]
        case LeftBrace =>
          apply ih
          simp [List.filter_append, htok, h]
        case RightBrace =>
          apply ih
          simp [List.filter_append, htok, h]
        case LeftBracket =>
          apply ih
          simp [List.filter_append, htok, h]
        case RightBracket =>
          apply ih
          simp [List.filter_append, htok, h]
        case Comma =>
          apply ih
          simp [List.filter_append, htok, h]
        case Colon =>
          apply ih
          simp [List.filter_append, htok, h]
        case False =>
          apply ih
          simp [List.filter_append, htok, h]
        case True =>
          apply ih
          simp [List.filter_append, htok, h]
        case Number =>
          apply ih
          simp [List.filter_append, htok, h]
        case String =>
          apply ih
          simp [List.filter_append, htok, h]
        case None =>
          apply ih
          simp [List.filter_append, htok, h]

/-- C7 is false on the code: `lexer.rs` has no arm for `#`, so scanning a
`#` raises the "unexpected character" lexical error and no token of kind
`Hash` is ever delivered to the parser, on any source text. -/
theorem c7_hash_never_lexed :
    (scan "#").errors = [⟨"Unexpected character `#`", 1⟩]
    ∧ (scan "#").tokens.map Token.kind = [TokenKind.Eof]
    ∧ ∀ src : String,
        (scan src).tokens.filter (fun t => t.kind == TokenKind.Hash) = [] :=
  ⟨rfl, rfl, fun _ => scanGo_no_hash _ _ rfl⟩

/-- As long as `a.ron` has not been cached — and it never is, because the
cache is only written after a file's resolution completes — loading the
self-including `a.ron` exhausts any amount of fuel: the run does not
terminate, and in particular neither a cycle error nor even the dead
`todo!("CYCLE")` panic is ever produced. -/
theorem loadF_cyclic_diverges :
    ∀ (fuel : Nat) (st : LoaderState),
      lookupCache st.cache "a.ron" = none →
      loadF fsCyclic fuel st "a.ron" = LRes.fuelOut := by
  intro fuel
  induction fuel using Nat.strong_induction_on with
  | _ fuel ih =>
    rcases fuel with _ | fuel
    · intro st h
      rfl
    · rcases fuel with _ | fuel
      · intro st h
        simp [loadF, fsCyclic, h, resolveF, LRes.bind]
      · intro st h
        have ihh := ih fuel (by omega)
        simp only [loadF, fsCyclic, resolveF, joinPath, LRes.bind, h,
          if_true]
        rw [ihh _ (by simpa using h)]

/-- C1 is false on the code: for a root file that includes itself, `load`
does not terminate with a cyclic-reference error — it recurses unboundedly
(the fuelled embedding returns "out of fuel" for every fuel; no error, no
panic, and no result is ever produced), because the resolution stack is
never consulted and the cache's cycle arm is dead. -/
theorem c1_cyclic_load_diverges :
    ∀ fuel : Nat, load fsCyclic fuel "a.ron" = LoadTopRes.fuelOut := by
  intro fuel
  unfold load
  rw [loadF_cyclic_diverges fuel initLoaderState rfl]
